import Mathlib

/-!
Verification development for the medical deep-research repository.

Shallow embedding of:
- `src/local_deep_research/progress/hierarchical_progress.py`
  (`HierarchicalProgressManager` and its data classes), and
- `src/local_deep_research/deep_agent_system.py`
  (`_parse_plan`, `_execute_research_plan`, `_execute_step`, `_format_results`).

Modelling conventions:
- Python wall-clock reads (`datetime.now(UTC)`, `time.time()`) are modelled by an
  explicit `now : Rat` argument threaded through every mutating operation; float
  arithmetic on timestamps is modelled by exact rational arithmetic.
- Python `int(...)` truncation toward zero is `pyTrunc`.
- The status enums (`StepStatus`, `AgentState`, `ToolStatus`) are `str` enums whose
  members compare equal to their plain-string values; both the enum branch and the
  `except ValueError` raw-string branch of the conversions store a value that is
  string-equal to the `status` argument, so statuses are modelled as `String`.
- The progress callback is external code; it is modelled as an optional function
  `ProgressState → Except String Unit`, where `Except.error` stands for a raised
  exception.  `_emit_update` passes `self.state.to_dict()` to the callback;
  `to_dict` is a pure serialization of the state, so the model passes the state
  itself.
- Python dicts `_step_start_times` / `_tool_start_times` are association lists with
  replace-or-append assignment.
- In-place mutation of an object found by a linear scan over a list
  (`next(a for a in ... if ...)`, `get_step`) is modelled by `updateFirst`, which
  rewrites the first matching element.
-/

namespace LocalDeepResearch

/-- Python `int()` truncation toward zero, on exact rationals. -/
def pyTrunc (q : ℚ) : ℤ := if 0 ≤ q then ⌊q⌋ else ⌈q⌉

/-- Rewrite the first element satisfying `p` with `f`; models in-place mutation of
the first object found by a linear scan. -/
def updateFirst (p : α → Bool) (f : α → α) : List α → List α
  | [] => []
  | x :: rest => if p x then f x :: rest else x :: updateFirst p f rest

/-- Python dict lookup (`d.get(k)` / `k in d` + `d[k]`). -/
def dictGet (k : String) : List (String × ℚ) → Option ℚ
  | [] => none
  | (k2, v) :: rest => if k2 = k then some v else dictGet k rest

/-- Python dict assignment `d[k] = v`. -/
def dictSet (k : String) (v : ℚ) : List (String × ℚ) → List (String × ℚ)
  | [] => [(k, v)]
  | (k2, v2) :: rest => if k2 = k then (k, v) :: rest else (k2, v2) :: dictSet k v rest

/-- Python whitespace characters stripped by `str.strip()`. -/
def isPySpace (c : Char) : Bool :=
  c == ' ' || c == '\t' || c == '\n' || c == '\r' || c == '\x0b' || c == '\x0c'

/-- Python `str.strip()`. -/
def pyStrip (s : String) : String :=
  { data := ((s.data.dropWhile isPySpace).reverse.dropWhile isPySpace).reverse }

/-- Split a character list at every occurrence of `c` (Python `str.split(c)`:
keeps empty pieces). -/
def splitOnChar (c : Char) : List Char → List (List Char)
  | [] => [[]]
  | x :: rest =>
    if x = c then [] :: splitOnChar c rest
    else
      match splitOnChar c rest with
      | [] => [[x]]
      | l :: ls => (x :: l) :: ls

/-- Python `s.split('\n')`. -/
def pySplitNewline (s : String) : List String :=
  (splitOnChar (Char.ofNat 10) s.data).map (fun l => { data := l })

/-- Split a character list at the first occurrence of `c`, when present. -/
def splitFirst (c : Char) : List Char → Option (List Char × List Char)
  | [] => none
  | x :: rest =>
    if x = c then some ([], rest)
    else (splitFirst c rest).map (fun p => (x :: p.1, p.2))

/-- Python `s.split(':', 1)`: at most one split, at the first colon. -/
def pySplit1Colon (s : String) : List String :=
  match splitFirst ':' s.data with
  | none => [s]
  | some (a, b) => [{ data := a }, { data := b }]

/-- Python `s.startswith(pre)`. -/
def startsWithChars : List Char → List Char → Bool
  | _, [] => true
  | [], _ :: _ => false
  | x :: xs, y :: ys => x == y && startsWithChars xs ys

/-- Python `s.startswith(pre)` on strings. -/
def pyStartsWith (s pre : String) : Bool :=
  startsWithChars s.data pre.data

/-- Python `s.replace(pat, rep)` (all occurrences, left to right), fueled by the
input length, which always suffices since every step consumes at least one
character; the degenerate empty pattern never occurs in the source. -/
def pyReplaceGo (pat rep : List Char) : ℕ → List Char → List Char
  | _, [] => []
  | 0, l => l
  | fuel + 1, x :: rest =>
    if pat != [] && startsWithChars (x :: rest) pat then
      rep ++ pyReplaceGo pat rep fuel ((x :: rest).drop pat.length)
    else
      x :: pyReplaceGo pat rep fuel rest

/-- Python `s.replace(pat, rep)` on strings. -/
def pyReplace (s pat rep : String) : String :=
  { data := pyReplaceGo pat.data rep.data s.data.length s.data }

/-- Python `s.lower()`. -/
def pyToLower (s : String) : String :=
  { data := s.data.map Char.toLower }

/-- Python slice `s[:n]`. -/
def pyTake (n : ℕ) (s : String) : String :=
  { data := s.data.take n }

/-- `dataclass PlanningStep` (hierarchical_progress.py). -/
structure PlanningStep where
  id : String
  name : String
  action : String := ""
  status : String := "pending"
  started_at : Option ℚ := none
  completed_at : Option ℚ := none
  duration_ms : Option ℤ := none
  details : Option String := none
  error : Option String := none
deriving DecidableEq

/-- `dataclass AgentStatus` (hierarchical_progress.py). -/
structure AgentStatus where
  name : String
  status : String := "idle"
  current_tool : Option String := none
  current_step : Option String := none
  parent_agent : Option String := none
  started_at : Option ℚ := none
  message : Option String := none
deriving DecidableEq

/-- `dataclass ToolExecution` (hierarchical_progress.py). -/
structure ToolExecution where
  tool : String
  status : String := "running"
  query : Option String := none
  started_at : ℚ
  completed_at : Option ℚ := none
  duration_ms : Option ℤ := none
  result_preview : Option String := none
  error : Option String := none
deriving DecidableEq

/-- `dataclass ProgressState` (hierarchical_progress.py). -/
structure ProgressState where
  research_id : String
  phase : String := "init"
  message : String := "Initializing..."
  overall_progress : ℤ := 0
  planning_steps : List PlanningStep := []
  active_agents : List AgentStatus := []
  tool_executions : List ToolExecution := []
  started_at : ℚ
  updated_at : ℚ
deriving DecidableEq

/-- `HierarchicalProgressManager` instance state: the progress state plus the two
private start-time dicts.  The callback slot is kept outside the structure and
passed to each operation, since it is opaque external code. -/
structure Manager where
  research_id : String
  state : ProgressState
  step_start_times : List (String × ℚ) := []
  tool_start_times : List (String × ℚ) := []
deriving DecidableEq

/-- The observer callback registered via `set_callback`; `Except.error` models a
raised exception. -/
def Callback : Type := ProgressState → Except String Unit

/-- `HierarchicalProgressManager.__init__`: fresh state plus the initial "main"
agent appended to `active_agents`. -/
def mkManager (research_id : String) (now : ℚ) : Manager :=
  { research_id := research_id
    state :=
      { research_id := research_id
        started_at := now
        updated_at := now
        active_agents := [{ name := "main", status := "idle", started_at := some now }] }
    step_start_times := []
    tool_start_times := [] }

/-- `_emit_update`: refresh `updated_at`, then call the callback with the new
state, catching (and logging) any exception it raises.  The second component
records the snapshot handed to the observer machinery by this emission. -/
def emitUpdate (cb : Option Callback) (now : ℚ) (m : Manager) :
    Manager × List ProgressState :=
  let st := { m.state with updated_at := now }
  let m2 := { m with state := st }
  match cb with
  | none => (m2, [st])
  | some f =>
    match f st with
    | Except.ok _ => (m2, [st])
    | Except.error _ => (m2, [st])

/-- `update_phase`: set phase and message, store `progress` verbatim when given
(`if progress is not None`), update the first agent named "main" when present,
then emit. -/
def update_phase (cb : Option Callback) (now : ℚ) (phase message : String)
    (progress : Option ℤ) (m : Manager) : Manager × List ProgressState :=
  let st := { m.state with phase := phase, message := message }
  let st :=
    match progress with
    | some p => { st with overall_progress := p }
    | none => st
  let st :=
    { st with active_agents :=
        (updateFirst (fun a => a.name == "main")
          (fun a =>
            let a := { a with message := some message }
            if phase = "planning" then { a with status := "planning" }
            else if phase = "execution" ∨ phase = "synthesis" then
              { a with status := "running" }
            else if phase = "complete" then { a with status := "completed" }
            else a)
          st.active_agents) }
  emitUpdate cb now { m with state := st }

/-- `update_progress`: clamp with `min(100, max(0, progress))`, set the message
when it is truthy (`if message:` — `None` and `""` are falsy), then emit. -/
def update_progress (cb : Option Callback) (now : ℚ) (progress : ℤ)
    (message : Option String) (m : Manager) : Manager × List ProgressState :=
  let st := { m.state with overall_progress := min 100 (max 0 progress) }
  let st :=
    match message with
    | some msg => if msg != "" then { st with message := msg } else st
    | none => st
  emitUpdate cb now { m with state := st }

/-- `add_planning_step`: append the step and emit. -/
def add_planning_step (cb : Option Callback) (now : ℚ) (step : PlanningStep)
    (m : Manager) : Manager × List ProgressState :=
  emitUpdate cb now
    { m with state := { m.state with planning_steps := m.state.planning_steps ++ [step] } }

/-- `get_step`: the first planning step whose id matches. -/
def get_step (step_id : String) (m : Manager) : Option PlanningStep :=
  m.state.planning_steps.find? (fun s => s.id == step_id)

/-- The in-place field mutations `update_step_status` performs on the step it
found: store the status, set `started_at` on "in_progress", set `completed_at`
and (if a start time was recorded) `duration_ms` on "completed"/"failed", then
set truthy details/error. -/
def update_step_fields (now : ℚ) (sst : List (String × ℚ)) (step_id status : String)
    (details error : Option String) (step : PlanningStep) : PlanningStep :=
  let step := { step with status := status }
  let step :=
    if status = "in_progress" then { step with started_at := some now }
    else if status = "completed" ∨ status = "failed" then
      let step := { step with completed_at := some now }
      match dictGet step_id sst with
      | some t0 => { step with duration_ms := some (pyTrunc ((now - t0) * 1000)) }
      | none => step
    else step
  let step :=
    match details with
    | some d => if d != "" then { step with details := some d } else step
    | none => step
  let step :=
    match error with
    | some e => if e != "" then { step with error := some e } else step
    | none => step
  step

/-- `update_step_status`: look the step up by id and return immediately (no state
change, no emission) when absent; otherwise mutate the found step, record the
start time on "in_progress", and emit. -/
def update_step_status (cb : Option Callback) (now : ℚ) (step_id status : String)
    (details error : Option String) (m : Manager) : Manager × List ProgressState :=
  match get_step step_id m with
  | none => (m, [])
  | some _ =>
    let m1 := { m with state := { m.state with planning_steps :=
        (updateFirst (fun s => s.id == step_id)
          (update_step_fields now m.step_start_times step_id status details error)
          m.state.planning_steps) } }
    let m2 :=
      if status = "in_progress" then
        { m1 with step_start_times := dictSet step_id now m1.step_start_times }
      else m1
    emitUpdate cb now m2

/-- The field mutations of `update_agent_status` on the found-or-created agent
(the optional arguments are guarded by `is not None`, not truthiness). -/
def update_agent_fields (status : String) (current_tool current_step message : Option String)
    (agent : AgentStatus) : AgentStatus :=
  let agent := { agent with status := status }
  let agent :=
    match current_tool with
    | some t => { agent with current_tool := some t }
    | none => agent
  let agent :=
    match current_step with
    | some s => { agent with current_step := some s }
    | none => agent
  let agent :=
    match message with
    | some msg => { agent with message := some msg }
    | none => agent
  agent

/-- `update_agent_status`: mutate the first agent with the given name, or append
a newly created one, then emit. -/
def update_agent_status (cb : Option Callback) (now : ℚ) (agent_name status : String)
    (current_tool current_step message : Option String) (m : Manager) :
    Manager × List ProgressState :=
  let found := m.state.active_agents.any (fun a => a.name == agent_name)
  let agents :=
    if found then
      updateFirst (fun a => a.name == agent_name)
        (update_agent_fields status current_tool current_step message)
        m.state.active_agents
    else
      m.state.active_agents ++
        [update_agent_fields status current_tool current_step message
          { name := agent_name, started_at := some now }]
  emitUpdate cb now { m with state := { m.state with active_agents := agents } }

/-- `add_sub_agent`: append a new agent with the given parent and emit. -/
def add_sub_agent (cb : Option Callback) (now : ℚ) (name parent : String)
    (m : Manager) : Manager × List ProgressState :=
  emitUpdate cb now
    { m with state := { m.state with active_agents :=
        (m.state.active_agents ++
          [{ name := name, parent_agent := some parent, started_at := some now }]) } }

/-- `remove_sub_agent`: keep every agent whose name differs, then emit. -/
def remove_sub_agent (cb : Option Callback) (now : ℚ) (name : String)
    (m : Manager) : Manager × List ProgressState :=
  emitUpdate cb now
    { m with state := { m.state with active_agents :=
        (m.state.active_agents.filter (fun a => a.name != name)) } }

/-- `add_tool_execution`: append the record, store its start time, point the main
agent at the tool, then emit. -/
def add_tool_execution (cb : Option Callback) (now : ℚ) (execution : ToolExecution)
    (m : Manager) : Manager × List ProgressState :=
  let m1 :=
    { m with
      state := { m.state with tool_executions := m.state.tool_executions ++ [execution] }
      tool_start_times := dictSet execution.tool now m.tool_start_times }
  let m2 :=
    { m1 with state := { m1.state with active_agents :=
        (updateFirst (fun a => a.name == "main")
          (fun a => { a with current_tool := some execution.tool })
          m1.state.active_agents) } }
  emitUpdate cb now m2

/-- The mutations `update_tool_execution` performs on the passed record before
storing it back into the matched slot: on a terminal status set `completed_at`
and, when a start time is on file for the tool, `duration_ms`. -/
def complete_tool_exec (now : ℚ) (tst : List (String × ℚ)) (execution : ToolExecution) :
    ToolExecution :=
  if execution.status = "completed" ∨ execution.status = "failed" then
    let ex := { execution with completed_at := some now }
    match dictGet execution.tool tst with
    | some t0 => { ex with duration_ms := some (pyTrunc ((now - t0) * 1000)) }
    | none => ex
  else execution

/-- `update_tool_execution`: overwrite the first stored record matching on tool
name and start timestamp, clear the main agent's current tool on a terminal
status, then emit. -/
def update_tool_execution (cb : Option Callback) (now : ℚ) (execution : ToolExecution)
    (m : Manager) : Manager × List ProgressState :=
  let m1 :=
    { m with state :=
        { m.state with tool_executions :=
            (updateFirst
              (fun e => e.tool == execution.tool && e.started_at == execution.started_at)
              (fun _ => complete_tool_exec now m.tool_start_times execution)
              m.state.tool_executions) } }
  let m2 :=
    if execution.status = "completed" ∨ execution.status = "failed" then
      { m1 with state := { m1.state with active_agents :=
          (updateFirst (fun a => a.name == "main")
            (fun a =>
              if a.current_tool == some execution.tool then { a with current_tool := none }
              else a)
            m1.state.active_agents) } }
    else m1
  emitUpdate cb now m2

/-- `len([s for s in steps if s.status in [COMPLETED, SKIPPED]])`. -/
def completed_or_skipped_count (m : Manager) : ℕ :=
  (m.state.planning_steps.filter
    (fun s => s.status == "completed" || s.status == "skipped")).length

/-- `len([s for s in steps if s.status == IN_PROGRESS])`. -/
def in_progress_count (m : Manager) : ℕ :=
  (m.state.planning_steps.filter (fun s => s.status == "in_progress")).length

/-- `calculate_overall_progress`: the manually-set field when there are no steps,
otherwise `min(100, int(base + partial))` over the step-status counts. -/
def calculate_overall_progress (m : Manager) : ℤ :=
  if m.state.planning_steps = [] then m.state.overall_progress
  else
    let total_steps : ℕ := m.state.planning_steps.length
    let completed_steps : ℕ := completed_or_skipped_count m
    let in_progress_steps : ℕ := in_progress_count m
    let base_progress : ℚ := ((completed_steps : ℚ) / (total_steps : ℚ)) * 100
    let prog_bonus : ℚ := (((in_progress_steps : ℚ) * (1 / 2)) / (total_steps : ℚ)) * 100
    min 100 (pyTrunc (base_progress + prog_bonus))

/-- One Tracker mutation, for quantifying over sequences of Tracker operations. -/
inductive Op where
  | phase (phase message : String) (progress : Option ℤ)
  | progress (progress : ℤ) (message : Option String)
  | addStep (step : PlanningStep)
  | stepStatus (step_id status : String) (details error : Option String)
  | agentStatus (agent_name status : String) (current_tool current_step message : Option String)
  | addSub (name parent : String)
  | removeSub (name : String)
  | addTool (execution : ToolExecution)
  | updateTool (execution : ToolExecution)
deriving DecidableEq

/-- Apply one Tracker mutation. -/
def applyOp (cb : Option Callback) (now : ℚ) (op : Op) (m : Manager) :
    Manager × List ProgressState :=
  match op with
  | Op.phase p msg pr => update_phase cb now p msg pr m
  | Op.progress p msg => update_progress cb now p msg m
  | Op.addStep s => add_planning_step cb now s m
  | Op.stepStatus sid st d e => update_step_status cb now sid st d e m
  | Op.agentStatus n st t s msg => update_agent_status cb now n st t s msg m
  | Op.addSub n p => add_sub_agent cb now n p m
  | Op.removeSub n => remove_sub_agent cb now n m
  | Op.addTool e => add_tool_execution cb now e m
  | Op.updateTool e => update_tool_execution cb now e m

/-- Apply a timestamped sequence of Tracker mutations. -/
def runOps (cb : Option Callback) (ops : List (ℚ × Op)) (m : Manager) : Manager :=
  ops.foldl (fun acc t => (applyOp cb t.1 t.2 acc).1) m

/-- The names of the agents currently in the active-agent collection. -/
def agent_names (m : Manager) : List String :=
  m.state.active_agents.map (fun a => a.name)

/-- Whether an agent named "main" is present in the active-agent collection. -/
def main_present (m : Manager) : Bool :=
  m.state.active_agents.any (fun a => a.name == "main")

/-! ## Plan parser (`DeepAgentResearchSystem._parse_plan`) -/

/-- The `current_step` dict accumulated by the parser loop:
`{"id": ..., "name": ..., "action": ...}`. -/
structure CurStep where
  id : String
  name : String
  action : String
deriving DecidableEq

/-- `PlanningStep(**current_step)`: the dataclass defaults fill the other fields. -/
def curToStep (c : CurStep) : PlanningStep :=
  { id := c.id, name := c.name, action := c.action }

/-- The line loop of `_parse_plan`, carried state `(steps, current_step, step_id)`.
A line opening with "STEP" (after stripping) opens a new step; an "ACTION:" line
with an open step normalizes the action and appends the step; any leftover open
step is appended after the loop. -/
def parse_plan_go : List String → List PlanningStep → Option CurStep → ℕ →
    List PlanningStep
  | [], steps, cur, _ =>
    match cur with
    | some c => steps ++ [curToStep c]
    | none => steps
  | l :: rest, steps, cur, step_id =>
    let line := pyStrip l
    if pyStartsWith line "STEP" then
      let sid := step_id + 1
      let parts := pySplit1Colon line
      let name :=
        match parts with
        | _ :: p1 :: _ => pyStrip p1
        | _ => "Step " ++ toString sid
      parse_plan_go rest steps (some { id := toString sid, name := name, action := "unknown" }) sid
    else if pyStartsWith line "ACTION:" && cur.isSome then
      match cur with
      | some c =>
        let action := pyToLower (pyStrip (pyReplace line "ACTION:" ""))
        parse_plan_go rest (steps ++ [curToStep { c with action := action }]) none step_id
      | none => parse_plan_go rest steps cur step_id
    else
      parse_plan_go rest steps cur step_id

/-- `_parse_plan`: strip the text, scan its lines, and fall back to the single
default step when no step was recognized. -/
def parse_plan (plan_text : String) : List PlanningStep :=
  let steps := parse_plan_go (pySplitNewline (pyStrip plan_text)) [] none 0
  if steps = [] then [{ id := "1", name := "Analyze query", action := "pubmed_search" }]
  else steps

/-! ## Step execution (`_execute_step`, `_execute_research_plan`) -/

/-- A source record `{"title": ..., "link": ...}`. -/
structure Source where
  title : String := ""
  link : String := ""
deriving DecidableEq

/-- The dict an action handler returns: content, sources, evidence levels
(the repository handlers always populate at least content and sources). -/
structure StepResult where
  content : String := ""
  sources : List Source := []
  evidence_levels : List (String × String) := []
deriving DecidableEq

/-- One finding appended by `_execute_research_plan`; the success branch leaves
`error` absent (`none`), the failure branch leaves `evidence_levels` absent
(`[]`). -/
structure Finding where
  step_id : String
  step_name : String
  action : String
  content : String
  sources : List Source
  evidence_levels : List (String × String) := []
  error : Option String := none
deriving DecidableEq

/-- The action handlers (`_execute_pico_query` and friends).  Their bodies wrap
external model/tool calls, so they are oracles; `Except.error` models a raised
exception.  The evidence-classification handler takes only the accumulated
context. -/
structure Handlers where
  pico : String → String → Except String StepResult
  mesh : String → String → Except String StepResult
  pubmed : String → String → Except String StepResult
  evidence : String → Except String StepResult
  synthesis : String → String → Except String StepResult

/-- The handler dispatch of `_execute_step`: the `action_handlers` alias table
with `_execute_pubmed_search` as the default, and the arity split that hands the
evidence-classification handler only the context. -/
def dispatch (H : Handlers) (action query context : String) : Except String StepResult :=
  if action = "evidence_classification" ∨ action = "evidence" ∨ action = "classify" then
    H.evidence context
  else if action = "pico_query" ∨ action = "pico" then H.pico query context
  else if action = "mesh_mapping" ∨ action = "mesh" then H.mesh query context
  else if action = "pubmed_search" ∨ action = "search" ∨ action = "pubmed" then
    H.pubmed query context
  else if action = "synthesis" ∨ action = "synthesize" then H.synthesis query context
  else H.pubmed query context

/-- Truthiness of a handler result in `if result:`: every handler in the source
returns a dict literal with at least the "content" and "sources" keys, and a
non-empty dict is truthy, so this is constantly true. -/
def stepResultTruthy (_ : StepResult) : Bool := true

/-- `_execute_step`: register a running `ToolExecution`, dispatch to the handler,
and mark the execution completed or failed (re-raising the handler error). -/
def execute_step (cb : Option Callback) (now : ℚ) (H : Handlers) (step : PlanningStep)
    (query context : String) (m : Manager) : Except String StepResult × Manager :=
  let action := pyToLower step.action
  let tool_exec : ToolExecution :=
    { tool := action, status := "running"
      query := some (if query.length > 100 then pyTake 100 query else query)
      started_at := now }
  let m := (add_tool_execution cb now tool_exec m).1
  match dispatch H action query context with
  | Except.ok result =>
    let m := (update_tool_execution cb now { tool_exec with status := "completed" } m).1
    (Except.ok result, m)
  | Except.error e =>
    let m :=
      (update_tool_execution cb now
        { tool_exec with status := "failed", error := some e } m).1
    (Except.error e, m)

/-- The step loop of `_execute_research_plan`: mark the step in progress, execute
it, and either record a finding, extend the context and sources and mark the step
completed, or mark it failed, append an error finding, and continue.  The
`self.progress_callback(...)` notification with the band progress value
`20 + int((i / len(steps)) * 60)` is a call into external observer code with no
effect on any state modelled here. -/
def execute_plan_go (cb : Option Callback) (now : ℚ) (H : Handlers) (query : String) :
    List PlanningStep → List Finding → String → List Source → Manager →
    List Finding × List Source × Manager
  | [], findings, _, links, m => (findings, links, m)
  | step :: rest, findings, context, links, m =>
    let m1 := (update_step_status cb now step.id "in_progress" none none m).1
    let es := execute_step cb now H step query context m1
    match es.1 with
    | Except.ok result =>
      if stepResultTruthy result then
        let findings := findings ++
          [{ step_id := step.id, step_name := step.name, action := step.action
             content := result.content, sources := result.sources
             evidence_levels := result.evidence_levels }]
        let context := context ++ "\n## " ++ step.name ++ "\n" ++ result.content ++ "\n"
        let links := if result.sources != [] then links ++ result.sources else links
        let m2 := (update_step_status cb now step.id "completed" none none es.2).1
        execute_plan_go cb now H query rest findings context links m2
      else
        let m2 := (update_step_status cb now step.id "completed" none none es.2).1
        execute_plan_go cb now H query rest findings context links m2
    | Except.error e =>
      let m2 := (update_step_status cb now step.id "failed" none none es.2).1
      let findings := findings ++
        [{ step_id := step.id, step_name := step.name, action := step.action
           content := "Error: " ++ e, sources := [], error := some e }]
      execute_plan_go cb now H query rest findings context links m2

/-- `_execute_research_plan`: run the step loop from the initial accumulated
context; returns the findings, the accumulated `all_links_of_system` extension,
and the final manager. -/
def execute_research_plan (cb : Option Callback) (now : ℚ) (H : Handlers)
    (query : String) (steps : List PlanningStep) (m : Manager) :
    List Finding × List Source × Manager :=
  execute_plan_go cb now H query steps [] ("Original Query: " ++ query ++ "\n\n") [] m

/-! ## Result formatting (`_format_results`) -/

/-- Python truthiness of `finding.get("error")`: the key may be absent (`none`)
or hold an empty string, both falsy. -/
def errTruthy : Option String → Bool
  | none => false
  | some e => e != ""

/-- `all_sources`: the findings' source lists concatenated in order. -/
def all_sources_of (findings : List Finding) : List Source :=
  findings.foldl (fun acc f => acc ++ f.sources) []

/-- The report header f-string: title, executive summary, detailed-findings
heading. -/
def report_header (query synthesis : String) : String :=
  "# Research Report: " ++ query ++ "\n\n## Executive Summary\n" ++ synthesis ++
    "\n\n## Detailed Findings\n"

/-- The detailed-findings loop: append a section per finding whose content is
truthy and whose error flag is falsy. -/
def detailed_section (findings : List Finding) : String :=
  findings.foldl
    (fun acc f =>
      if f.content != "" && !errTruthy f.error then
        acc ++ "\n### " ++ f.step_name ++ "\n" ++ f.content ++ "\n"
      else acc)
    ""

/-- One numbered source line `f"{i}. [{title}]({link})\n"`. -/
def source_line (i : ℕ) (s : Source) : String :=
  toString i ++ ". [" ++ s.title ++ "](" ++ s.link ++ ")\n"

/-- The `enumerate(all_sources[:20], 1)` loop body. -/
def source_lines : List Source → ℕ → String
  | [], _ => ""
  | s :: rest, i => source_line i s ++ source_lines rest (i + 1)

/-- The sources section: present only when sources accumulated, numbering the
first 20 from 1. -/
def sources_section (findings : List Finding) : String :=
  let all_sources := all_sources_of findings
  if all_sources != [] then "\n## Sources\n" ++ source_lines (all_sources.take 20) 1
  else ""

/-- The result dict of `_format_results`.  The `search_system` self-reference and
the `questions_by_iteration` compatibility list (never written by this pipeline)
are not modelled. -/
structure ResearchResult where
  query : String
  findings : List Finding
  formatted_findings : String
  current_knowledge : String
  iterations : ℕ
  all_links_of_system : List Source
deriving DecidableEq

/-- `_format_results`: assemble the formatted report and the result dict. -/
def format_results (query : String) (findings : List Finding) (synthesis : String)
    (all_links : List Source) : ResearchResult :=
  { query := query
    findings := findings
    formatted_findings :=
      report_header query synthesis ++ detailed_section findings ++
        sources_section findings
    current_knowledge := synthesis
    iterations := findings.length
    all_links_of_system := all_links }

/-- Concrete sample data for witness instantiations: one finding carrying 21
identical sources. -/
def wide_finding : Finding :=
  { step_id := "1", step_name := "S", action := "a", content := "x"
    sources := List.replicate 21 { title := "T", link := "L" } }

/-! ## Basic lemmas about emission and field preservation -/

theorem emitUpdate_some (f : Callback) (now : ℚ) (m : Manager) :
    emitUpdate (some f) now m = emitUpdate none now m := by
  simp only [emitUpdate]
  cases f { m.state with updated_at := now } <;> rfl

theorem emitUpdate_fst (cb : Option Callback) (now : ℚ) (m : Manager) :
    (emitUpdate cb now m).1 = { m with state := { m.state with updated_at := now } } := by
  cases cb with
  | none => rfl
  | some f => rw [emitUpdate_some]; rfl

theorem emitUpdate_snd (cb : Option Callback) (now : ℚ) (m : Manager) :
    (emitUpdate cb now m).2 = [{ m.state with updated_at := now }] := by
  cases cb with
  | none => rfl
  | some f => rw [emitUpdate_some]; rfl

/-! ## C5: callback exceptions are isolated from the mutation -/

/-- C5: for every Tracker mutation, running it with any registered observer
callback (including one that raises) returns exactly the same manager state and
emission as running it with no callback — the exception never propagates and the
mutation's state change is retained — and whenever the mutation emits, the
retained state carries the refreshed `updated_at`. -/
theorem callback_exception_isolated (cb : Callback) (now : ℚ) (op : Op) (m : Manager) :
    applyOp (some cb) now op m = applyOp none now op m ∧
    ((applyOp (some cb) now op m).2 ≠ [] →
      (applyOp (some cb) now op m).1.state.updated_at = now) := by
  have hmain : ∀ m2 : Manager, (emitUpdate (some cb) now m2).1.state.updated_at = now := by
    intro m2
    rw [emitUpdate_fst]
  cases op with
  | phase p msg pr =>
    refine ⟨?_, fun _ => ?_⟩ <;> simp only [applyOp, update_phase]
    · rw [emitUpdate_some]
    · exact hmain _
  | progress p msg =>
    refine ⟨?_, fun _ => ?_⟩ <;> simp only [applyOp, update_progress]
    · rw [emitUpdate_some]
    · exact hmain _
  | addStep s =>
    refine ⟨?_, fun _ => ?_⟩ <;> simp only [applyOp, add_planning_step]
    · rw [emitUpdate_some]
    · exact hmain _
  | stepStatus sid st d e =>
    cases hg : get_step sid m with
    | none =>
      constructor
      · simp only [applyOp, update_step_status, hg]
      · intro hne
        exfalso
        apply hne
        simp only [applyOp, update_step_status, hg]
    | some s0 =>
      refine ⟨?_, fun _ => ?_⟩ <;> simp only [applyOp, update_step_status, hg]
      · rw [emitUpdate_some]
      · exact hmain _
  | agentStatus n st t s msg =>
    refine ⟨?_, fun _ => ?_⟩ <;> simp only [applyOp, update_agent_status]
    · rw [emitUpdate_some]
    · exact hmain _
  | addSub n p =>
    refine ⟨?_, fun _ => ?_⟩ <;> simp only [applyOp, add_sub_agent]
    · rw [emitUpdate_some]
    · exact hmain _
  | removeSub n =>
    refine ⟨?_, fun _ => ?_⟩ <;> simp only [applyOp, remove_sub_agent]
    · rw [emitUpdate_some]
    · exact hmain _
  | addTool e =>
    refine ⟨?_, fun _ => ?_⟩ <;> simp only [applyOp, add_tool_execution]
    · rw [emitUpdate_some]
    · exact hmain _
  | updateTool e =>
    refine ⟨?_, fun _ => ?_⟩ <;> simp only [applyOp, update_tool_execution]
    · rw [emitUpdate_some]
    · exact hmain _

/-- C5 witness: a concrete mutation under an always-raising callback equals the
callback-free run, and the emitted state carries the new timestamp. -/
theorem callback_exception_isolated_witness :
    applyOp (some (fun _ => Except.error "observer blew up")) 1 (Op.progress 50 none)
        (mkManager "r" 0) =
      applyOp none 1 (Op.progress 50 none) (mkManager "r" 0) ∧
    (applyOp (some (fun _ => Except.error "observer blew up")) 1 (Op.progress 50 none)
        (mkManager "r" 0)).1.state.updated_at = 1 := by
  have h := callback_exception_isolated (fun _ => Except.error "observer blew up") 1
    (Op.progress 50 none) (mkManager "r" 0)
  exact ⟨h.1, h.2 (by decide)⟩

/-! ## C9: updating an unknown step id is a complete no-op -/

/-- C9: calling `update_step_status` with a step id matching no planning step
returns the manager unchanged (every field, `updated_at` included) and emits no
snapshot to the observer. -/
theorem step_update_unknown_id_noop (cb : Option Callback) (now : ℚ)
    (sid status : String) (details err : Option String) (m : Manager)
    (h : ∀ s ∈ m.state.planning_steps, s.id ≠ sid) :
    update_step_status cb now sid status details err m = (m, []) := by
  have hg : get_step sid m = none := by
    unfold get_step
    apply List.find?_eq_none.mpr
    intro s hs
    simpa using h s hs
  simp only [update_step_status, hg]

/-- C9 witness: a concrete unknown-id update on a fresh manager is the identity
with no emission. -/
theorem step_update_unknown_id_noop_witness :
    update_step_status none 1 "nope" "completed" none none (mkManager "r" 0) =
      (mkManager "r" 0, []) :=
  step_update_unknown_id_noop none 1 "nope" "completed" none none (mkManager "r" 0)
    (by intro s hs; simp [mkManager] at hs)

/-! ## C10: empty plan falls back to the manually-set progress -/

/-- C10: with no planning steps registered, `calculate_overall_progress` returns
the manually-set `overall_progress` field. -/
theorem calc_progress_empty_fallback (m : Manager)
    (h : m.state.planning_steps = []) :
    calculate_overall_progress m = m.state.overall_progress := by
  unfold calculate_overall_progress
  rw [if_pos h]

/-- C10 witness: a fresh manager with manually-set progress 37 and no steps. -/
theorem calc_progress_empty_fallback_witness :
    calculate_overall_progress ((update_progress none 1 37 none (mkManager "r" 0)).1) =
      ((update_progress none 1 37 none (mkManager "r" 0)).1).state.overall_progress ∧
    ((update_progress none 1 37 none (mkManager "r" 0)).1).state.overall_progress = 37 :=
  ⟨calc_progress_empty_fallback _ (by decide), by decide⟩

/-! ## Counterexamples for the corrected claims -/

/-- C1 counterexample: `remove_sub_agent("main")` does remove the main agent —
after the single Tracker operation `remove_sub_agent "main"` on a fresh manager,
no agent named "main" remains. -/
theorem remove_main_agent_counterexample :
    main_present (runOps none [(1, Op.removeSub "main")] (mkManager "r" 0)) = false := by
  decide

/-- C2 counterexample: `update_phase` stores its progress argument unclamped, so
the sequence consisting of the single mutation `update_phase("execution", "msg",
150)` leaves `overall_progress` at 150, outside [0,100]. -/
theorem overall_progress_range_counterexample :
    (runOps none [(1, Op.phase "execution" "msg" (some 150))]
        (mkManager "r" 0)).state.overall_progress = 150 ∧
    ¬ (runOps none [(1, Op.phase "execution" "msg" (some 150))]
        (mkManager "r" 0)).state.overall_progress ≤ 100 := by
  constructor <;> decide

/-- C4 counterexample: on non-empty text with no STEP line, the single fallback
step's action tag is "pubmed_search", not "search". -/
theorem parse_fallback_action_counterexample :
    (parse_plan "hello").map (fun s => s.action) = ["pubmed_search"] ∧
    "pubmed_search" ≠ "search" := by
  constructor
  · decide
  · decide

/-- C7 counterexample: updating a step straight to "completed" with no prior
"in_progress" update leaves `duration_ms` null after the update (no start time
was ever recorded), so a status update to "completed" does not always produce a
non-negative duration. -/
theorem step_duration_counterexample :
    (get_step "1"
        ((update_step_status none 1 "1" "completed" none none
          ((add_planning_step none 0 { id := "1", name := "S" }
            (mkManager "r" 0)).1)).1)).map
        (fun s => (s.status, s.duration_ms)) = some ("completed", none) := by
  decide

/-- C8 counterexample: a finding whose error flag is the empty string (a finding
flagged with an error, since the error key is set and not null) still has its
content section rendered — the report is identical to the one for the same
finding with no error flag, and it visibly contains the "### S" content
section. -/
theorem format_error_section_counterexample :
    ({ step_id := "1", step_name := "S", action := "a", content := "x",
       sources := [], error := some "" } : Finding).error ≠ none ∧
    (format_results "q"
        [{ step_id := "1", step_name := "S", action := "a", content := "x",
           sources := [], error := some "" }] "syn" []).formatted_findings =
      "# Research Report: q\n\n## Executive Summary\nsyn\n\n## Detailed Findings\n\n### S\nx\n" ∧
    (format_results "q"
        [{ step_id := "1", step_name := "S", action := "a", content := "x",
           sources := [], error := some "" }] "syn" []).formatted_findings =
      (format_results "q"
        [{ step_id := "1", step_name := "S", action := "a", content := "x",
           sources := [], error := none }] "syn" []).formatted_findings := by
  refine ⟨by decide, rfl, rfl⟩

/-! ## C6: the derived progress equals the floored ratio formula -/

theorem length_filter_add_length_filter_le (p q : α → Bool) (l : List α)
    (h : ∀ a, ¬(p a = true ∧ q a = true)) :
    (l.filter p).length + (l.filter q).length ≤ l.length := by
  induction l with
  | nil => simp
  | cons x xs ih =>
    by_cases hp : p x = true
    · by_cases hq : q x = true
      · exact absurd ⟨hp, hq⟩ (h x)
      · simp only [List.filter_cons, if_pos hp, if_neg hq, List.length_cons]
        omega
    · by_cases hq : q x = true
      · simp only [List.filter_cons, if_neg hp, if_pos hq, List.length_cons]
        omega
      · simp only [List.filter_cons, if_neg hp, if_neg hq, List.length_cons]
        omega

theorem pyTrunc_of_nonneg {q : ℚ} (h : 0 ≤ q) : pyTrunc q = ⌊q⌋ := by
  unfold pyTrunc
  rw [if_pos h]

/-- C6: with a non-empty step list, `calculate_overall_progress` returns exactly
`floor((completedOrSkipped + 0.5 * inProgress) / total * 100)`. -/
theorem calc_progress_floor_formula (m : Manager)
    (h : m.state.planning_steps ≠ []) :
    calculate_overall_progress m =
      ⌊(((completed_or_skipped_count m : ℚ) + (1 / 2) * (in_progress_count m : ℚ)) /
          (m.state.planning_steps.length : ℚ)) * 100⌋ := by
  unfold calculate_overall_progress
  rw [if_neg h]
  have hcp : completed_or_skipped_count m + in_progress_count m ≤
      m.state.planning_steps.length := by
    apply length_filter_add_length_filter_le
    intro a ⟨h1, h2⟩
    simp only [Bool.or_eq_true, beq_iff_eq] at h1 h2
    rw [h2] at h1
    rcases h1 with h1 | h1 <;> exact absurd h1 (by decide)
  set t := m.state.planning_steps.length with ht_def
  set c := completed_or_skipped_count m with hc_def
  set p := in_progress_count m with hp_def
  have ht : 0 < t := List.length_pos.mpr h
  have htq : (0 : ℚ) < (t : ℚ) := by exact_mod_cast ht
  have key : ((c : ℚ) / (t : ℚ)) * 100 + (((p : ℚ) * (1 / 2)) / (t : ℚ)) * 100 =
      (((c : ℚ) + (1 / 2) * (p : ℚ)) / (t : ℚ)) * 100 := by
    field_simp
    ring
  show min 100 (pyTrunc (((c : ℚ) / (t : ℚ)) * 100 + (((p : ℚ) * (1 / 2)) / (t : ℚ)) * 100)) = _
  rw [key]
  have hnn : (0 : ℚ) ≤ (((c : ℚ) + (1 / 2) * (p : ℚ)) / (t : ℚ)) * 100 := by positivity
  rw [pyTrunc_of_nonneg hnn]
  have hle : (((c : ℚ) + (1 / 2) * (p : ℚ)) / (t : ℚ)) * 100 ≤ 100 := by
    have hnum : (c : ℚ) + (1 / 2) * (p : ℚ) ≤ (t : ℚ) := by
      have : (c : ℚ) + (1 / 2) * (p : ℚ) ≤ (c : ℚ) + (p : ℚ) := by
        have hp0 : (0 : ℚ) ≤ (p : ℚ) := by positivity
        nlinarith
      have hct : (c : ℚ) + (p : ℚ) ≤ (t : ℚ) := by exact_mod_cast hcp
      linarith
    have hdiv : ((c : ℚ) + (1 / 2) * (p : ℚ)) / (t : ℚ) ≤ 1 :=
      (div_le_one htq).mpr hnum
    nlinarith
  have hfl : ⌊(((c : ℚ) + (1 / 2) * (p : ℚ)) / (t : ℚ)) * 100⌋ ≤ 100 := by
    have := Int.floor_mono hle
    simpa using this
  exact min_eq_right hfl

/-- C6 witness: one completed and one in-progress step out of two gives
`floor(1.5 / 2 * 100) = 75`. -/
theorem calc_progress_floor_formula_witness :
    calculate_overall_progress
        ((add_planning_step none 0 { id := "2", name := "T", status := "in_progress" }
          ((add_planning_step none 0 { id := "1", name := "S", status := "completed" }
            (mkManager "r" 0)).1)).1) =
      ⌊(((completed_or_skipped_count
            ((add_planning_step none 0 { id := "2", name := "T", status := "in_progress" }
              ((add_planning_step none 0 { id := "1", name := "S", status := "completed" }
                (mkManager "r" 0)).1)).1) : ℚ) +
          (1 / 2) * (in_progress_count
            ((add_planning_step none 0 { id := "2", name := "T", status := "in_progress" }
              ((add_planning_step none 0 { id := "1", name := "S", status := "completed" }
                (mkManager "r" 0)).1)).1) : ℚ)) /
          (((add_planning_step none 0 { id := "2", name := "T", status := "in_progress" }
            ((add_planning_step none 0 { id := "1", name := "S", status := "completed" }
              (mkManager "r" 0)).1)).1).state.planning_steps.length : ℚ)) * 100⌋ ∧
    calculate_overall_progress
        ((add_planning_step none 0 { id := "2", name := "T", status := "in_progress" }
          ((add_planning_step none 0 { id := "1", name := "S", status := "completed" }
            (mkManager "r" 0)).1)).1) = 75 := by
  have h1 := calc_progress_floor_formula
    ((add_planning_step none 0 { id := "2", name := "T", status := "in_progress" }
      ((add_planning_step none 0 { id := "1", name := "S", status := "completed" }
        (mkManager "r" 0)).1)).1) (by decide)
  refine ⟨h1, ?_⟩
  rw [h1]
  rw [show completed_or_skipped_count
      ((add_planning_step none 0 { id := "2", name := "T", status := "in_progress" }
        ((add_planning_step none 0 { id := "1", name := "S", status := "completed" }
          (mkManager "r" 0)).1)).1) = 1 from by decide]
  rw [show in_progress_count
      ((add_planning_step none 0 { id := "2", name := "T", status := "in_progress" }
        ((add_planning_step none 0 { id := "1", name := "S", status := "completed" }
          (mkManager "r" 0)).1)).1) = 1 from by decide]
  rw [show (((add_planning_step none 0 { id := "2", name := "T", status := "in_progress" }
        ((add_planning_step none 0 { id := "1", name := "S", status := "completed" }
          (mkManager "r" 0)).1)).1).state.planning_steps.length) = 2 from by decide]
  rw [show (((1 : ℕ) : ℚ) + (1 / 2) * ((1 : ℕ) : ℚ)) / ((2 : ℕ) : ℚ) * 100 = 75 from by
    norm_num]
  simp

/-! ## C1: persistence of the main agent -/

theorem updateFirst_map (g : α → β) (p : α → Bool) (f : α → α) (l : List α)
    (hf : ∀ a, g (f a) = g a) : (updateFirst p f l).map g = l.map g := by
  induction l with
  | nil => rfl
  | cons x xs ih =>
    unfold updateFirst
    by_cases hp : p x = true
    · rw [if_pos hp]
      simp [hf x]
    · rw [if_neg hp]
      simp [ih]

theorem agent_names_emit (cb : Option Callback) (now : ℚ) (m : Manager) :
    agent_names (emitUpdate cb now m).1 = agent_names m := by
  rw [emitUpdate_fst]
  rfl

theorem mem_name_updateFirst (x : String) (p : AgentStatus → Bool)
    (f : AgentStatus → AgentStatus) (l : List AgentStatus)
    (hf : ∀ a, (f a).name = a.name)
    (hx : x ∈ l.map (fun a => a.name)) :
    x ∈ (updateFirst p f l).map (fun a => a.name) := by
  rw [updateFirst_map (fun a => a.name) p f l hf]
  exact hx

theorem mem_name_append (x : String) (l : List AgentStatus) (l2 : List AgentStatus)
    (hx : x ∈ l.map (fun a => a.name)) :
    x ∈ (l ++ l2).map (fun a => a.name) := by
  rw [List.map_append]
  exact List.mem_append_left _ hx

theorem mem_main_applyOp (cb : Option Callback) (now : ℚ) (op : Op) (m : Manager)
    (hop : op ≠ Op.removeSub "main")
    (hm : "main" ∈ agent_names m) :
    "main" ∈ agent_names (applyOp cb now op m).1 := by
  cases op with
  | phase ph msg pr =>
    cases pr with
    | none =>
      simp only [applyOp, update_phase, agent_names_emit]
      exact mem_name_updateFirst "main" _ _ _
        (fun a => by (repeat' split) <;> rfl) hm
    | some p =>
      simp only [applyOp, update_phase, agent_names_emit]
      exact mem_name_updateFirst "main" _ _ _
        (fun a => by (repeat' split) <;> rfl) hm
  | progress p msg =>
    cases msg with
    | none =>
      simp only [applyOp, update_progress, agent_names_emit]
      exact hm
    | some s =>
      simp only [applyOp, update_progress, agent_names_emit]
      split <;> exact hm
  | addStep s =>
    simp only [applyOp, add_planning_step, agent_names_emit]
    exact hm
  | stepStatus sid st d e =>
    cases hg : get_step sid m with
    | none =>
      simp only [applyOp, update_step_status, hg]
      exact hm
    | some s0 =>
      simp only [applyOp, update_step_status, hg]
      split <;> (simp only [agent_names_emit]; exact hm)
  | agentStatus n st t s msg =>
    simp only [applyOp, update_agent_status, agent_names_emit]
    split
    · exact mem_name_updateFirst "main" _ _ _
        (fun a => by unfold update_agent_fields; cases t <;> cases s <;> cases msg <;> rfl) hm
    · exact mem_name_append "main" _ _ hm
  | addSub n p =>
    simp only [applyOp, add_sub_agent, agent_names_emit]
    exact mem_name_append "main" _ _ hm
  | removeSub n =>
    have hn : n ≠ "main" := by
      intro he
      exact hop (by rw [he])
    simp only [applyOp, remove_sub_agent, agent_names_emit]
    rcases List.mem_map.mp hm with ⟨a, ha, hname⟩
    refine List.mem_map.mpr ⟨a, List.mem_filter.mpr ⟨ha, ?_⟩, hname⟩
    simp only [bne_iff_ne, ne_eq, hname]
    exact fun he => hn he.symm
  | addTool e =>
    simp only [applyOp, add_tool_execution, agent_names_emit]
    exact mem_name_updateFirst "main" _ _ _ (fun a => rfl) hm
  | updateTool e =>
    simp only [applyOp, update_tool_execution, agent_names_emit]
    split
    · exact mem_name_updateFirst "main" _ _ _
        (fun a => by split <;> rfl) hm
    · exact hm

/-- C1 (amended): the main agent exists after construction and survives every
sequence of Tracker operations that never calls `remove_sub_agent` with the name
"main" (in particular `remove_sub_agent` with any other name never removes
it). -/
theorem main_agent_persistence (cb : Option Callback) (rid : String) (t0 : ℚ)
    (ops : List (ℚ × Op)) (hops : ∀ p ∈ ops, p.2 ≠ Op.removeSub "main") :
    main_present (mkManager rid t0) = true ∧
    main_present (runOps cb ops (mkManager rid t0)) = true := by
  have base : "main" ∈ agent_names (mkManager rid t0) := by
    simp [mkManager, agent_names]
  have mp_of : ∀ mm : Manager, "main" ∈ agent_names mm → main_present mm = true := by
    intro mm hmm
    rcases List.mem_map.mp hmm with ⟨a, ha, hname⟩
    simp only [main_present, List.any_eq_true]
    exact ⟨a, ha, by simp [hname]⟩
  refine ⟨mp_of _ base, mp_of _ ?_⟩
  have main : ∀ (ops2 : List (ℚ × Op)) (mm : Manager),
      (∀ p ∈ ops2, p.2 ≠ Op.removeSub "main") → "main" ∈ agent_names mm →
      "main" ∈ agent_names (runOps cb ops2 mm) := by
    intro ops2
    induction ops2 with
    | nil =>
      intro mm _ hmm
      simpa [runOps] using hmm
    | cons p rest ih =>
      intro mm hops2 hmm
      rw [show runOps cb (p :: rest) mm = runOps cb rest (applyOp cb p.1 p.2 mm).1 from rfl]
      exact ih _ (fun q hq => hops2 q (List.mem_cons_of_mem _ hq))
        (mem_main_applyOp cb p.1 p.2 mm (hops2 p (List.mem_cons_self _ _)) hmm)
  exact main ops _ hops base

/-- C1 witness: adding then removing a sub-agent keeps the main agent. -/
theorem main_agent_persistence_witness :
    main_present (mkManager "r" 0) = true ∧
    main_present (runOps none [(1, Op.addSub "worker" "main"), (2, Op.removeSub "worker")]
      (mkManager "r" 0)) = true :=
  main_agent_persistence none "r" 0
    [(1, Op.addSub "worker" "main"), (2, Op.removeSub "worker")] (by decide)

/-! ## C2: bounds on the overall progress -/

theorem overall_emit (cb : Option Callback) (now : ℚ) (m : Manager) :
    (emitUpdate cb now m).1.state.overall_progress = m.state.overall_progress := by
  rw [emitUpdate_fst]

theorem update_phase_overall_some (cb : Option Callback) (now : ℚ)
    (ph msg : String) (p : ℤ) (m : Manager) :
    (update_phase cb now ph msg (some p) m).1.state.overall_progress = p := by
  simp only [update_phase, overall_emit]

theorem update_phase_overall_none (cb : Option Callback) (now : ℚ)
    (ph msg : String) (m : Manager) :
    (update_phase cb now ph msg none m).1.state.overall_progress =
      m.state.overall_progress := by
  simp only [update_phase, overall_emit]

theorem update_progress_overall (cb : Option Callback) (now : ℚ) (p : ℤ)
    (msg : Option String) (m : Manager) :
    (update_progress cb now p msg m).1.state.overall_progress =
      min 100 (max 0 p) := by
  simp only [update_progress, overall_emit]
  cases msg with
  | none => rfl
  | some s =>
    dsimp only
    split <;> rfl

theorem applyOp_overall_bounds (cb : Option Callback) (now : ℚ) (op : Op) (m : Manager)
    (hop : ∀ ph msg pr, op = Op.phase ph msg (some pr) → 0 ≤ pr ∧ pr ≤ 100)
    (h0 : 0 ≤ m.state.overall_progress)
    (h1 : m.state.overall_progress ≤ 100) :
    0 ≤ (applyOp cb now op m).1.state.overall_progress ∧
      (applyOp cb now op m).1.state.overall_progress ≤ 100 := by
  cases op with
  | phase ph msg pr =>
    cases pr with
    | none =>
      simp only [applyOp, update_phase_overall_none]
      exact ⟨h0, h1⟩
    | some p =>
      simp only [applyOp, update_phase_overall_some]
      exact hop ph msg p rfl
  | progress p msg =>
    simp only [applyOp, update_progress_overall]
    refine ⟨le_min (by norm_num) (le_max_left 0 p), min_le_left 100 _⟩
  | addStep s =>
    simp only [applyOp, add_planning_step, overall_emit]
    exact ⟨h0, h1⟩
  | stepStatus sid st d e =>
    cases hg : get_step sid m with
    | none => simp only [applyOp, update_step_status, hg]; exact ⟨h0, h1⟩
    | some s0 =>
      simp only [applyOp, update_step_status, hg]
      split <;> (simp only [overall_emit]; exact ⟨h0, h1⟩)
  | agentStatus n st t s msg =>
    simp only [applyOp, update_agent_status, overall_emit]
    exact ⟨h0, h1⟩
  | addSub n p =>
    simp only [applyOp, add_sub_agent, overall_emit]
    exact ⟨h0, h1⟩
  | removeSub n =>
    simp only [applyOp, remove_sub_agent, overall_emit]
    exact ⟨h0, h1⟩
  | addTool e =>
    simp only [applyOp, add_tool_execution, overall_emit]
    exact ⟨h0, h1⟩
  | updateTool e =>
    simp only [applyOp, update_tool_execution, overall_emit]
    split <;> exact ⟨h0, h1⟩

/-- C2 (amended): starting from a fresh manager, `overall_progress` stays within
[0,100] for every mutation sequence whose `update_phase` progress arguments,
when provided, lie within [0,100] (`update_phase` stores its argument
unclamped); and `update_progress` clamps, storing 0, 0, 100, 100 for the
boundary inputs -5, 0, 100, 150. -/
theorem overall_progress_bounds :
    (∀ (cb : Option Callback) (rid : String) (t0 : ℚ) (ops : List (ℚ × Op)),
      (∀ p ∈ ops, ∀ ph msg pr, p.2 = Op.phase ph msg (some pr) → 0 ≤ pr ∧ pr ≤ 100) →
      0 ≤ (runOps cb ops (mkManager rid t0)).state.overall_progress ∧
        (runOps cb ops (mkManager rid t0)).state.overall_progress ≤ 100) ∧
    (∀ (cb : Option Callback) (now : ℚ) (m : Manager) (msg : Option String),
      (update_progress cb now (-5) msg m).1.state.overall_progress = 0 ∧
      (update_progress cb now 0 msg m).1.state.overall_progress = 0 ∧
      (update_progress cb now 100 msg m).1.state.overall_progress = 100 ∧
      (update_progress cb now 150 msg m).1.state.overall_progress = 100) := by
  constructor
  · intro cb rid t0 ops hops
    have main : ∀ (ops2 : List (ℚ × Op)) (mm : Manager),
        (∀ p ∈ ops2, ∀ ph msg pr, p.2 = Op.phase ph msg (some pr) → 0 ≤ pr ∧ pr ≤ 100) →
        0 ≤ mm.state.overall_progress → mm.state.overall_progress ≤ 100 →
        0 ≤ (runOps cb ops2 mm).state.overall_progress ∧
          (runOps cb ops2 mm).state.overall_progress ≤ 100 := by
      intro ops2
      induction ops2 with
      | nil =>
        intro mm _ h0 h1
        exact ⟨h0, h1⟩
      | cons p rest ih =>
        intro mm hops2 h0 h1
        rw [show runOps cb (p :: rest) mm = runOps cb rest (applyOp cb p.1 p.2 mm).1 from rfl]
        have hstep := applyOp_overall_bounds cb p.1 p.2 mm
          (fun ph msg pr he => hops2 p (List.mem_cons_self _ _) ph msg pr he) h0 h1
        exact ih _ (fun q hq => hops2 q (List.mem_cons_of_mem _ hq)) hstep.1 hstep.2
    exact main ops _ hops (by norm_num [mkManager]) (by norm_num [mkManager])
  · intro cb now m msg
    refine ⟨?_, ?_, ?_, ?_⟩ <;> rw [update_progress_overall] <;> decide

/-- C2 witness: a sequence mixing a bounded phase update and a clamped progress
update stays within bounds, and the boundary clamp values are as stated. -/
theorem overall_progress_bounds_witness :
    (0 ≤ (runOps none [(1, Op.phase "execution" "go" (some 40)), (2, Op.progress 150 none)]
        (mkManager "r" 0)).state.overall_progress ∧
      (runOps none [(1, Op.phase "execution" "go" (some 40)), (2, Op.progress 150 none)]
        (mkManager "r" 0)).state.overall_progress ≤ 100) ∧
    (update_progress none 1 (-5) none (mkManager "r" 0)).1.state.overall_progress = 0 := by
  constructor
  · refine overall_progress_bounds.1 none "r" 0
      [(1, Op.phase "execution" "go" (some 40)), (2, Op.progress 150 none)] ?_
    intro p hp ph msg pr he
    rcases List.mem_cons.mp hp with h | h
    · subst h
      injection he with h1 h2 h3
      injection h3 with h4
      constructor <;> omega
    · rcases List.mem_cons.mp h with h2 | h2
      · subst h2
        exact absurd he (by simp)
      · simp at h2
  · exact (overall_progress_bounds.2 none 1 (mkManager "r" 0) none).1

/-! ## C4: parser fallback on plan text without STEP lines -/

theorem parse_go_no_step (lines : List String) (k : ℕ)
    (h : ∀ l ∈ lines, pyStartsWith (pyStrip l) "STEP" = false) :
    parse_plan_go lines [] none k = [] := by
  induction lines generalizing k with
  | nil => rfl
  | cons l rest ih =>
    simp only [parse_plan_go]
    have h1 : ¬ (pyStartsWith (pyStrip l) "STEP" = true) := by
      rw [h l (List.mem_cons_self _ _)]
      exact Bool.false_ne_true
    rw [if_neg h1]
    have h2 : ¬ ((pyStartsWith (pyStrip l) "ACTION:" && (none : Option CurStep).isSome) = true) := by
      simp
    rw [if_neg h2]
    exact ih _ (fun l2 hl2 => h l2 (List.mem_cons_of_mem _ hl2))

/-- C4 (amended): on non-empty plan text none of whose stripped lines starts with
the literal "STEP", the parser returns exactly the single fallback step, whose
action tag is "pubmed_search". -/
theorem parse_plan_fallback (text : String) (hne : text ≠ "")
    (h : ∀ l ∈ pySplitNewline (pyStrip text), pyStartsWith (pyStrip l) "STEP" = false) :
    parse_plan text = [{ id := "1", name := "Analyze query", action := "pubmed_search" }] ∧
    (parse_plan text).map (fun s => s.action) = ["pubmed_search"] := by
  have hgo := parse_go_no_step (pySplitNewline (pyStrip text)) 0 h
  have hmain : parse_plan text =
      [{ id := "1", name := "Analyze query", action := "pubmed_search" }] := by
    unfold parse_plan
    rw [hgo]
    rfl
  exact ⟨hmain, by rw [hmain]; rfl⟩

/-- C4 witness: the plan text "hello" has no STEP line and parses to the single
fallback step. -/
theorem parse_plan_fallback_witness :
    parse_plan "hello" = [{ id := "1", name := "Analyze query", action := "pubmed_search" }] ∧
    (parse_plan "hello").map (fun s => s.action) = ["pubmed_search"] :=
  parse_plan_fallback "hello" (by decide) (by decide)

/-! ## C7: effects of step-status updates -/

theorem find?_updateFirst (p : α → Bool) (f : α → α) (l : List α)
    (hf : ∀ a, p a = true → p (f a) = true) :
    (updateFirst p f l).find? p = (l.find? p).map f := by
  induction l with
  | nil => rfl
  | cons x xs ih =>
    unfold updateFirst
    by_cases hp : p x = true
    · rw [if_pos hp]
      rw [List.find?_cons_of_pos _ (hf x hp), List.find?_cons_of_pos _ hp]
      rfl
    · rw [if_neg hp]
      have hp2 : ¬ p x = true := hp
      rw [List.find?_cons_of_neg _ hp2, List.find?_cons_of_neg _ hp2]
      exact ih

theorem update_step_fields_id (now : ℚ) (sst : List (String × ℚ)) (sid status : String)
    (details err : Option String) (s : PlanningStep) :
    (update_step_fields now sst sid status details err s).id = s.id := by
  unfold update_step_fields
  (repeat' split) <;> rfl

theorem update_step_fields_started (now : ℚ) (sst : List (String × ℚ)) (sid : String)
    (details err : Option String) (s : PlanningStep) :
    (update_step_fields now sst sid "in_progress" details err s).started_at = some now := by
  simp only [update_step_fields]
  (repeat' split) <;> simp_all

theorem update_step_fields_duration_some (now : ℚ) (sst : List (String × ℚ))
    (sid status : String) (details err : Option String) (s : PlanningStep) (t0 : ℚ)
    (hterm : status = "completed" ∨ status = "failed")
    (ht : dictGet sid sst = some t0) :
    (update_step_fields now sst sid status details err s).duration_ms =
      some (pyTrunc ((now - t0) * 1000)) := by
  have hni : ¬ status = "in_progress" := by
    rcases hterm with h | h <;> subst h <;> decide
  simp only [update_step_fields, if_neg hni, if_pos hterm, ht]
  (repeat' split) <;> simp_all

theorem update_step_fields_duration_none (now : ℚ) (sst : List (String × ℚ))
    (sid status : String) (details err : Option String) (s : PlanningStep)
    (hterm : status = "completed" ∨ status = "failed")
    (ht : dictGet sid sst = none) :
    (update_step_fields now sst sid status details err s).duration_ms =
      s.duration_ms := by
  have hni : ¬ status = "in_progress" := by
    rcases hterm with h | h <;> subst h <;> decide
  simp only [update_step_fields, if_neg hni, if_pos hterm, ht]
  (repeat' split) <;> simp_all

theorem steps_emit (cb : Option Callback) (now : ℚ) (m : Manager) :
    (emitUpdate cb now m).1.state.planning_steps = m.state.planning_steps := by
  rw [emitUpdate_fst]

theorem update_step_status_steps (cb : Option Callback) (now : ℚ) (sid status : String)
    (details err : Option String) (m : Manager) (st : PlanningStep)
    (hfind : get_step sid m = some st) :
    (update_step_status cb now sid status details err m).1.state.planning_steps =
      updateFirst (fun s => s.id == sid)
        (update_step_fields now m.step_start_times sid status details err)
        m.state.planning_steps := by
  simp only [update_step_status, hfind]
  split <;> rw [steps_emit]

theorem get_step_after_update (cb : Option Callback) (now : ℚ) (sid status : String)
    (details err : Option String) (m : Manager) (st : PlanningStep)
    (hfind : get_step sid m = some st) :
    get_step sid (update_step_status cb now sid status details err m).1 =
      some (update_step_fields now m.step_start_times sid status details err st) := by
  unfold get_step
  rw [update_step_status_steps cb now sid status details err m st hfind]
  rw [find?_updateFirst _ _ _ (fun s hs => by
    rw [beq_iff_eq] at hs ⊢
    rw [update_step_fields_id]
    exact hs)]
  rw [show m.state.planning_steps.find? (fun s => s.id == sid) = some st from hfind]
  rfl

/-- C7 (amended): for a planning step present in the state, an update to
"in_progress" sets its `started_at`; an update to "completed" or "failed" sets
its `duration_ms` to a non-negative integer when a start time was recorded for
the step and the clock is non-decreasing, and leaves `duration_ms` unchanged
when no start time was recorded. -/
theorem step_status_update_effects (cb : Option Callback) (now : ℚ)
    (sid status : String) (details err : Option String) (m : Manager) (st : PlanningStep)
    (hfind : get_step sid m = some st) :
    (status = "in_progress" →
      (get_step sid (update_step_status cb now sid status details err m).1).map
        (fun s => s.started_at) = some (some now)) ∧
    ((status = "completed" ∨ status = "failed") →
      (∀ t0, dictGet sid m.step_start_times = some t0 → t0 ≤ now →
        ∃ d : ℤ, (get_step sid (update_step_status cb now sid status details err m).1).map
            (fun s => s.duration_ms) = some (some d) ∧ 0 ≤ d) ∧
      (dictGet sid m.step_start_times = none →
        (get_step sid (update_step_status cb now sid status details err m).1).map
          (fun s => s.duration_ms) = some st.duration_ms)) := by
  have hg := get_step_after_update cb now sid status details err m st hfind
  constructor
  · intro hst
    subst hst
    rw [hg, Option.map_some']
    rw [update_step_fields_started]
  · intro hterm
    constructor
    · intro t0 ht0 hle
      refine ⟨pyTrunc ((now - t0) * 1000), ?_, ?_⟩
      · rw [hg, Option.map_some']
        rw [update_step_fields_duration_some now m.step_start_times sid status
          details err st t0 hterm ht0]
      · have hts : (0 : ℚ) ≤ (now - t0) * 1000 := by
          have h1 : (0 : ℚ) ≤ now - t0 := by linarith
          nlinarith
        rw [pyTrunc_of_nonneg hts]
        exact Int.floor_nonneg.mpr hts
    · intro ht0
      rw [hg, Option.map_some']
      rw [update_step_fields_duration_none now m.step_start_times sid status
        details err st hterm ht0]

/-- C7 witness: a step set in progress at time 1 and completed at time 2 gets a
non-negative duration. -/
theorem step_status_update_effects_witness :
    ∃ d : ℤ,
      (get_step "1" ((update_step_status none 2 "1" "completed" none none
          ((update_step_status none 1 "1" "in_progress" none none
            ((add_planning_step none 0 { id := "1", name := "S" }
              (mkManager "r" 0)).1)).1)).1)).map
        (fun s => s.duration_ms) = some (some d) ∧ 0 ≤ d := by
  have h := step_status_update_effects none 2 "1" "completed" none none
    ((update_step_status none 1 "1" "in_progress" none none
      ((add_planning_step none 0 { id := "1", name := "S" }
        (mkManager "r" 0)).1)).1)
    { id := "1", name := "S", status := "in_progress", started_at := some 1 }
    (by decide)
  exact (h.2 (Or.inl rfl)).1 1 (by decide) (by norm_num)

/-! ## C8: formatted report sections -/

theorem source_lines_enum (l : List Source) (i : ℕ) :
    source_lines l i =
      (List.enumFrom i l).foldr (fun p acc => source_line p.1 p.2 ++ acc) "" := by
  induction l generalizing i with
  | nil => rfl
  | cons s rest ih =>
    simp only [source_lines, List.enumFrom, List.foldr]
    rw [ih]

theorem enumFrom_fst (n : ℕ) (l : List α) :
    (List.enumFrom n l).map Prod.fst = List.range' n l.length := by
  induction l generalizing n with
  | nil => rfl
  | cons x xs ih =>
    simp only [List.enumFrom, List.map, List.length_cons, List.range']
    rw [ih]

theorem detailed_section_filter (fs : List Finding) :
    detailed_section fs = detailed_section (fs.filter (fun f => !errTruthy f.error)) := by
  unfold detailed_section
  have main : ∀ (fs2 : List Finding) (acc : String),
      fs2.foldl (fun acc f =>
        if f.content != "" && !errTruthy f.error then
          acc ++ "\n### " ++ f.step_name ++ "\n" ++ f.content ++ "\n"
        else acc) acc =
      (fs2.filter (fun f => !errTruthy f.error)).foldl (fun acc f =>
        if f.content != "" && !errTruthy f.error then
          acc ++ "\n### " ++ f.step_name ++ "\n" ++ f.content ++ "\n"
        else acc) acc := by
    intro fs2
    induction fs2 with
    | nil => intro acc; rfl
    | cons f rest ih =>
      intro acc
      by_cases he : errTruthy f.error = true
      · rw [List.filter_cons, if_neg (by simp [he])]
        rw [List.foldl_cons]
        rw [show (if f.content != "" && !errTruthy f.error then
            acc ++ "\n### " ++ f.step_name ++ "\n" ++ f.content ++ "\n"
          else acc) = acc from by simp [he]]
        exact ih acc
      · rw [List.filter_cons, if_pos (by simp [he])]
        rw [List.foldl_cons, List.foldl_cons]
        exact ih _
  exact main fs ""

/-- C8 (amended): the formatted report is the header, the detailed sections and
the sources section in order; every finding flagged with a non-empty error
contributes no content section; and when more than 20 sources accumulate the
sources section holds exactly the first 20, numbered 1 through 20. -/
theorem format_results_sections (q : String) (fs : List Finding) (syn : String)
    (links : List Source) :
    (format_results q fs syn links).formatted_findings =
      report_header q syn ++ detailed_section fs ++ sources_section fs ∧
    detailed_section fs = detailed_section (fs.filter (fun f => !errTruthy f.error)) ∧
    (20 < (all_sources_of fs).length →
      sources_section fs =
        "\n## Sources\n" ++ (List.enumFrom 1 ((all_sources_of fs).take 20)).foldr
          (fun p acc => source_line p.1 p.2 ++ acc) "" ∧
      ((all_sources_of fs).take 20).length = 20 ∧
      (List.enumFrom 1 ((all_sources_of fs).take 20)).map Prod.fst = List.range' 1 20) := by
  refine ⟨rfl, detailed_section_filter fs, fun h20 => ?_⟩
  have hne : all_sources_of fs ≠ [] := by
    intro he
    rw [he] at h20
    simp at h20
  have hlen : ((all_sources_of fs).take 20).length = 20 := by
    rw [List.length_take]
    omega
  refine ⟨?_, hlen, ?_⟩
  · unfold sources_section
    rw [if_pos (by simp [hne] : (all_sources_of fs != []) = true)]
    rw [source_lines_enum]
  · rw [enumFrom_fst, hlen]

/-- C8 witness: a finding carrying 21 sources truncates the sources section to
exactly 20 numbered entries. -/
theorem format_results_sections_witness :
    ((all_sources_of [wide_finding]).take 20).length = 20 ∧
    (format_results "q" [wide_finding] "syn" []).formatted_findings =
      report_header "q" "syn" ++ detailed_section [wide_finding] ++
        sources_section [wide_finding] := by
  have h := format_results_sections "q" [wide_finding] "syn" []
  exact ⟨(h.2.2 (by decide)).2.1, h.1⟩

/-! ## C3: plan execution isolates per-step failures -/

theorem update_step_fields_status (now : ℚ) (sst : List (String × ℚ)) (sid status : String)
    (details err : Option String) (s : PlanningStep) :
    (update_step_fields now sst sid status details err s).status = status := by
  unfold update_step_fields
  (repeat' split) <;> rfl

theorem emit_sst (cb : Option Callback) (now : ℚ) (m : Manager) :
    (emitUpdate cb now m).1.step_start_times = m.step_start_times := by
  rw [emitUpdate_fst]

theorem add_tool_execution_steps (cb : Option Callback) (now : ℚ) (e : ToolExecution)
    (m : Manager) :
    (add_tool_execution cb now e m).1.state.planning_steps = m.state.planning_steps := by
  simp only [add_tool_execution, steps_emit]

theorem update_tool_execution_steps (cb : Option Callback) (now : ℚ) (e : ToolExecution)
    (m : Manager) :
    (update_tool_execution cb now e m).1.state.planning_steps = m.state.planning_steps := by
  simp only [update_tool_execution]
  split <;> rw [steps_emit]

theorem execute_step_fst (cb : Option Callback) (now : ℚ) (H : Handlers)
    (step : PlanningStep) (q c : String) (m : Manager) :
    (execute_step cb now H step q c m).1 = dispatch H (pyToLower step.action) q c := by
  simp only [execute_step]
  cases hd : dispatch H (pyToLower step.action) q c <;> rfl

theorem get_step_execute_step (cb : Option Callback) (now : ℚ) (H : Handlers)
    (step : PlanningStep) (q c : String) (m : Manager) (sid : String) :
    get_step sid (execute_step cb now H step q c m).2 = get_step sid m := by
  unfold get_step
  have hsteps : (execute_step cb now H step q c m).2.state.planning_steps =
      m.state.planning_steps := by
    simp only [execute_step]
    cases hd : dispatch H (pyToLower step.action) q c <;>
      simp only [update_tool_execution_steps, add_tool_execution_steps]
  rw [hsteps]

theorem find?_updateFirst_ne (p q : α → Bool) (f : α → α) (l : List α)
    (hpq : ∀ a, q a = true → (p a = false ∧ p (f a) = false)) :
    (updateFirst q f l).find? p = l.find? p := by
  induction l with
  | nil => rfl
  | cons x xs ih =>
    unfold updateFirst
    by_cases hq : q x = true
    · rw [if_pos hq]
      rcases hpq x hq with ⟨h1, h2⟩
      rw [List.find?_cons_of_neg _ (by simp [h2]), List.find?_cons_of_neg _ (by simp [h1])]
    · rw [if_neg hq]
      by_cases hp : p x = true
      · rw [List.find?_cons_of_pos _ hp, List.find?_cons_of_pos _ hp]
      · rw [List.find?_cons_of_neg _ hp, List.find?_cons_of_neg _ hp]
        exact ih

theorem get_step_update_other (cb : Option Callback) (now : ℚ) (sid2 status : String)
    (details err : Option String) (m : Manager) (sid : String) (hne : sid ≠ sid2) :
    get_step sid (update_step_status cb now sid2 status details err m).1 =
      get_step sid m := by
  cases hg : get_step sid2 m with
  | none => simp only [update_step_status, hg]
  | some st =>
    unfold get_step
    rw [update_step_status_steps cb now sid2 status details err m st hg]
    apply find?_updateFirst_ne
    intro a ha
    rw [beq_iff_eq] at ha
    constructor
    · rw [beq_eq_false_iff_ne, ha]
      exact fun h => hne h.symm
    · rw [beq_eq_false_iff_ne, update_step_fields_id, ha]
      exact fun h => hne h.symm

theorem get_step_isSome_after_update (cb : Option Callback) (now : ℚ)
    (sid status : String) (details err : Option String) (m : Manager)
    (h : (get_step sid m).isSome = true) :
    (get_step sid (update_step_status cb now sid status details err m).1).isSome = true := by
  obtain ⟨st, hst⟩ := Option.isSome_iff_exists.mp h
  rw [get_step_after_update cb now sid status details err m st hst]
  rfl

theorem get_step_status_after_update (cb : Option Callback) (now : ℚ)
    (sid status : String) (details err : Option String) (m : Manager)
    (h : (get_step sid m).isSome = true) :
    (get_step sid (update_step_status cb now sid status details err m).1).map
      (fun s => s.status) = some status := by
  obtain ⟨st, hst⟩ := Option.isSome_iff_exists.mp h
  rw [get_step_after_update cb now sid status details err m st hst, Option.map_some']
  rw [update_step_fields_status]

theorem get_step_isSome_iff (sid : String) (m : Manager) :
    (get_step sid m).isSome = true ↔
      sid ∈ m.state.planning_steps.map (fun s => s.id) := by
  unfold get_step
  rw [List.find?_isSome]
  constructor
  · rintro ⟨x, hx, hp⟩
    rw [beq_iff_eq] at hp
    exact List.mem_map.mpr ⟨x, hx, hp⟩
  · rintro hmem
    rcases List.mem_map.mp hmem with ⟨x, hx, hp⟩
    exact ⟨x, hx, by rw [beq_iff_eq]; exact hp⟩

theorem go_acc (cb : Option Callback) (now : ℚ) (H : Handlers) (q : String) :
    ∀ (steps : List PlanningStep) (fs : List Finding) (ctx : String)
      (links : List Source) (m : Manager),
      (execute_plan_go cb now H q steps fs ctx links m).1 =
        fs ++ (execute_plan_go cb now H q steps [] ctx links m).1 := by
  intro steps
  induction steps with
  | nil =>
    intro fs ctx links m
    simp [execute_plan_go]
  | cons step rest ih =>
    intro fs ctx links m
    simp only [execute_plan_go, stepResultTruthy, if_pos]
    split
    · rw [ih (fs ++ _), ih ([] ++ _)]
      simp only [List.nil_append]
      rw [List.append_assoc]
    · rw [ih (fs ++ _), ih ([] ++ _)]
      simp only [List.nil_append]
      rw [List.append_assoc]

theorem go_proj (cb : Option Callback) (now : ℚ) (H : Handlers) (q : String) :
    ∀ (steps : List PlanningStep) (ctx : String) (links : List Source) (m : Manager),
      (execute_plan_go cb now H q steps [] ctx links m).1.map
        (fun f => (f.step_id, f.step_name, f.action)) =
        steps.map (fun s => (s.id, s.name, s.action)) := by
  intro steps
  induction steps with
  | nil =>
    intro ctx links m
    simp [execute_plan_go]
  | cons step rest ih =>
    intro ctx links m
    simp only [execute_plan_go, stepResultTruthy, if_pos]
    split
    · rw [go_acc cb now H q rest ([] ++ _)]
      simp only [List.nil_append]
      rw [List.map_append, ih]
      rfl
    · rw [go_acc cb now H q rest ([] ++ _)]
      simp only [List.nil_append]
      rw [List.map_append, ih]
      rfl

theorem go_err (cb : Option Callback) (now : ℚ) (H : Handlers) (q : String) :
    ∀ (steps : List PlanningStep) (ctx : String) (links : List Source) (m : Manager)
      (i : ℕ) (st : PlanningStep) (e : String),
      steps.get? i = some st →
      (∀ q2 c2, dispatch H (pyToLower st.action) q2 c2 = Except.error e) →
      ∃ f, (execute_plan_go cb now H q steps [] ctx links m).1.get? i = some f ∧
        f.error = some e ∧ f.content = "Error: " ++ e := by
  intro steps
  induction steps with
  | nil =>
    intro ctx links m i st e hget
    simp at hget
  | cons step rest ih =>
    intro ctx links m i st e hget hfail
    cases i with
    | zero =>
      rw [List.get?_cons_zero] at hget
      injection hget with hst
      subst hst
      simp only [execute_plan_go]
      have hes : (execute_step cb now H step q ctx
          ((update_step_status cb now step.id "in_progress" none none m).1)).1 =
          Except.error e := by
        rw [execute_step_fst]
        exact hfail q ctx
      rw [hes]
      rw [go_acc cb now H q rest ([] ++ _)]
      simp only [List.nil_append, List.singleton_append, List.get?_cons_zero]
      exact ⟨_, rfl, rfl, rfl⟩
    | succ i =>
      rw [List.get?_cons_succ] at hget
      simp only [execute_plan_go, stepResultTruthy, if_pos]
      split
      · rw [go_acc cb now H q rest ([] ++ _)]
        simp only [List.nil_append, List.singleton_append, List.get?_cons_succ]
        exact ih _ _ _ i st e hget hfail
      · rw [go_acc cb now H q rest ([] ++ _)]
        simp only [List.nil_append, List.singleton_append, List.get?_cons_succ]
        exact ih _ _ _ i st e hget hfail

theorem go_get_step_preserved (cb : Option Callback) (now : ℚ) (H : Handlers) (q : String) :
    ∀ (steps : List PlanningStep) (fs : List Finding) (ctx : String) (links : List Source)
      (m : Manager) (sid : String),
      (∀ s ∈ steps, s.id ≠ sid) →
      get_step sid (execute_plan_go cb now H q steps fs ctx links m).2.2 =
        get_step sid m := by
  intro steps
  induction steps with
  | nil =>
    intro fs ctx links m sid _
    rfl
  | cons step rest ih =>
    intro fs ctx links m sid h
    have hstep : step.id ≠ sid := h step (List.mem_cons_self _ _)
    have hrest : ∀ s ∈ rest, s.id ≠ sid := fun s hs => h s (List.mem_cons_of_mem _ hs)
    have hnesym : sid ≠ step.id := fun he => hstep he.symm
    simp only [execute_plan_go, stepResultTruthy, if_pos]
    split
    · rw [ih _ _ _ _ _ hrest]
      rw [get_step_update_other _ _ _ _ _ _ _ _ hnesym]
      rw [get_step_execute_step]
      rw [get_step_update_other _ _ _ _ _ _ _ _ hnesym]
    · rw [ih _ _ _ _ _ hrest]
      rw [get_step_update_other _ _ _ _ _ _ _ _ hnesym]
      rw [get_step_execute_step]
      rw [get_step_update_other _ _ _ _ _ _ _ _ hnesym]

theorem go_failed (cb : Option Callback) (now : ℚ) (H : Handlers) (q : String) :
    ∀ (steps : List PlanningStep) (fs : List Finding) (ctx : String) (links : List Source)
      (m : Manager) (i : ℕ) (st : PlanningStep) (e : String),
      steps.get? i = some st →
      (∀ q2 c2, dispatch H (pyToLower st.action) q2 c2 = Except.error e) →
      (get_step st.id m).isSome = true →
      (∀ j st2, steps.get? j = some st2 → j ≠ i → st2.id ≠ st.id) →
      (get_step st.id (execute_plan_go cb now H q steps fs ctx links m).2.2).map
        (fun s => s.status) = some "failed" := by
  intro steps
  induction steps with
  | nil =>
    intro fs ctx links m i st e hget
    simp at hget
  | cons step rest ih =>
    intro fs ctx links m i st e hget hfail hpres hdist
    cases i with
    | zero =>
      rw [List.get?_cons_zero] at hget
      injection hget with hst
      subst hst
      have hrest : ∀ s ∈ rest, s.id ≠ step.id := by
        intro s hs hes
        rcases List.mem_iff_get?.mp hs with ⟨j, hj⟩
        exact hdist (j + 1) s (by rwa [List.get?_cons_succ]) (Nat.succ_ne_zero j) hes
      simp only [execute_plan_go]
      have hes : (execute_step cb now H step q ctx
          ((update_step_status cb now step.id "in_progress" none none m).1)).1 =
          Except.error e := by
        rw [execute_step_fst]
        exact hfail q ctx
      rw [hes]
      rw [go_get_step_preserved cb now H q rest _ _ _ _ _ hrest]
      apply get_step_status_after_update
      rw [get_step_execute_step]
      exact get_step_isSome_after_update _ _ _ _ _ _ _ hpres
    | succ i =>
      rw [List.get?_cons_succ] at hget
      have hstep2 : step.id ≠ st.id := by
        intro he
        exact hdist 0 step rfl (by omega) he
      have hnesym : st.id ≠ step.id := fun he => hstep2 he.symm
      have hdist2 : ∀ j st2, rest.get? j = some st2 → j ≠ i → st2.id ≠ st.id := by
        intro j st2 hj hne2
        exact hdist (j + 1) st2 (by rwa [List.get?_cons_succ]) (by omega)
      have hpres2 : ∀ m2 : Manager, get_step st.id m2 = get_step st.id m →
          (get_step st.id m2).isSome = true := by
        intro m2 he
        rw [he]
        exact hpres
      simp only [execute_plan_go, stepResultTruthy, if_pos]
      split
      · apply ih _ _ _ _ i st e hget hfail _ hdist2
        apply hpres2
        rw [get_step_update_other _ _ _ _ _ _ _ _ hnesym]
        rw [get_step_execute_step]
        rw [get_step_update_other _ _ _ _ _ _ _ _ hnesym]
      · apply ih _ _ _ _ i st e hget hfail _ hdist2
        apply hpres2
        rw [get_step_update_other _ _ _ _ _ _ _ _ hnesym]
        rw [get_step_execute_step]
        rw [get_step_update_other _ _ _ _ _ _ _ _ hnesym]

/-- C3: for every query and non-empty plan whose steps (with distinct ids) are
the ones registered with the progress manager, plan execution returns one
finding per step, in step order (same ids, names and action tags); and whenever
the handler dispatched for step i always raises, the i-th finding carries that
error with content "Error: ..." and the step is marked failed in the final
manager — while every other step still contributes its finding (the failure
never aborts the pipeline). -/
theorem plan_execution_isolated_failures (cb : Option Callback) (now : ℚ) (H : Handlers)
    (query : String) (steps : List PlanningStep) (m : Manager)
    (hne : steps ≠ [])
    (hids : m.state.planning_steps.map (fun s => s.id) = steps.map (fun s => s.id))
    (hnodup : (steps.map (fun s => s.id)).Nodup) :
    (execute_research_plan cb now H query steps m).1.map
        (fun f => (f.step_id, f.step_name, f.action)) =
      steps.map (fun s => (s.id, s.name, s.action)) ∧
    (execute_research_plan cb now H query steps m).1.length = steps.length ∧
    (∀ i st e, steps.get? i = some st →
      (∀ q2 c2, dispatch H (pyToLower st.action) q2 c2 = Except.error e) →
      (∃ f, (execute_research_plan cb now H query steps m).1.get? i = some f ∧
        f.error = some e ∧ f.content = "Error: " ++ e) ∧
      (get_step st.id (execute_research_plan cb now H query steps m).2.2).map
        (fun s => s.status) = some "failed") := by
  have hproj := go_proj cb now H query steps ("Original Query: " ++ query ++ "\n\n") [] m
  refine ⟨hproj, ?_, ?_⟩
  · have hlen := congrArg List.length hproj
    simpa using hlen
  · intro i st e hget hfail
    constructor
    · exact go_err cb now H query steps _ _ _ i st e hget hfail
    · have hpres : (get_step st.id m).isSome = true := by
        rw [get_step_isSome_iff, hids]
        exact List.mem_map.mpr ⟨st, List.get?_mem hget, rfl⟩
      have hdist : ∀ j st2, steps.get? j = some st2 → j ≠ i → st2.id ≠ st.id := by
        intro j st2 hj hne2 heq
        apply hne2
        have hmi : (steps.map (fun s => s.id)).get? i = some st.id := by
          rw [List.get?_map, hget]
          rfl
        have hmj : (steps.map (fun s => s.id)).get? j = some st.id := by
          rw [List.get?_map, hj]
          rw [Option.map_some']
          rw [heq]
        have hj_lt : j < (steps.map (fun s => s.id)).length := by
          by_contra hc
          rw [List.get?_eq_none.mpr (by omega)] at hmj
          exact Option.noConfusion hmj
        exact List.get?_inj hj_lt hnodup (hmj.trans hmi.symm)
      exact go_failed cb now H query steps _ _ _ _ i st e hget hfail hpres hdist

/-- C3 witness: a two-step plan whose first handler always raises still yields
two findings in order, with the first carrying the error and marked failed. -/
theorem plan_execution_isolated_failures_witness :
    ((execute_research_plan none 1
        { pico := fun _ _ => Except.error "boom"
          mesh := fun _ _ => Except.ok { content := "mesh ok" }
          pubmed := fun _ _ => Except.ok { content := "search ok" }
          evidence := fun _ => Except.ok { content := "evidence ok" }
          synthesis := fun _ _ => Except.ok { content := "synthesis ok" } }
        "q" [{ id := "1", name := "A", action := "pico" }, { id := "2", name := "B", action := "mesh" }]
        ((add_planning_step none 0 { id := "2", name := "B", action := "mesh" }
          ((add_planning_step none 0 { id := "1", name := "A", action := "pico" }
            (mkManager "r" 0)).1)).1)).1.map
      (fun f => (f.step_id, f.step_name, f.action)) =
      [("1", "A", "pico"), ("2", "B", "mesh")]) ∧
    (∃ f, (execute_research_plan none 1
        { pico := fun _ _ => Except.error "boom"
          mesh := fun _ _ => Except.ok { content := "mesh ok" }
          pubmed := fun _ _ => Except.ok { content := "search ok" }
          evidence := fun _ => Except.ok { content := "evidence ok" }
          synthesis := fun _ _ => Except.ok { content := "synthesis ok" } }
        "q" [{ id := "1", name := "A", action := "pico" }, { id := "2", name := "B", action := "mesh" }]
        ((add_planning_step none 0 { id := "2", name := "B", action := "mesh" }
          ((add_planning_step none 0 { id := "1", name := "A", action := "pico" }
            (mkManager "r" 0)).1)).1)).1.get? 0 = some f ∧
      f.error = some "boom" ∧ f.content = "Error: " ++ "boom") ∧
    (get_step "1" (execute_research_plan none 1
        { pico := fun _ _ => Except.error "boom"
          mesh := fun _ _ => Except.ok { content := "mesh ok" }
          pubmed := fun _ _ => Except.ok { content := "search ok" }
          evidence := fun _ => Except.ok { content := "evidence ok" }
          synthesis := fun _ _ => Except.ok { content := "synthesis ok" } }
        "q" [{ id := "1", name := "A", action := "pico" }, { id := "2", name := "B", action := "mesh" }]
        ((add_planning_step none 0 { id := "2", name := "B", action := "mesh" }
          ((add_planning_step none 0 { id := "1", name := "A", action := "pico" }
            (mkManager "r" 0)).1)).1)).2.2).map
      (fun s => s.status) = some "failed" := by
  have h := plan_execution_isolated_failures none 1
    { pico := fun _ _ => Except.error "boom"
      mesh := fun _ _ => Except.ok { content := "mesh ok" }
      pubmed := fun _ _ => Except.ok { content := "search ok" }
      evidence := fun _ => Except.ok { content := "evidence ok" }
      synthesis := fun _ _ => Except.ok { content := "synthesis ok" } }
    "q" [{ id := "1", name := "A", action := "pico" }, { id := "2", name := "B", action := "mesh" }]
    ((add_planning_step none 0 { id := "2", name := "B", action := "mesh" }
      ((add_planning_step none 0 { id := "1", name := "A", action := "pico" }
        (mkManager "r" 0)).1)).1)
    (by decide) (by decide) (by decide)
  have hcase := h.2.2 0 { id := "1", name := "A", action := "pico" } "boom" rfl
    (fun q2 c2 => rfl)
  refine ⟨?_, hcase.1, hcase.2⟩
  rw [h.1]
  rfl

end LocalDeepResearch
